import Mathlib

/-!
Verification development for the pyglotaran optimization core.

The Python sources are shallowly embedded in Lean:
* numpy float arrays become `List ℚ` (exact rationals stand in for floats),
* 2-D arrays become `List (List ℚ)` in row-major `(model, global)` order,
* raised exceptions become `Option`/`Except` results,
* the `Parameter` class and the matrix/relation pipeline, whose defining
  modules are not part of the embedded sources, are modelled from the
  specification where noted.
-/

namespace Glotaran

/-- numpy `ndarray.min()` on a 1-D array; the Python call is only reached on
nonempty arrays, the `[]` default is never used by callers. -/
def npMin : List ℚ → ℚ
  | [] => 0
  | x :: xs => xs.foldl min x

/-- numpy `ndarray.argmin()` on a 1-D array: index of the first occurrence of
the minimum value. -/
def npArgmin (l : List ℚ) : Nat :=
  l.indexOf (npMin l)

/-- numpy `np.unique`: sorted ascending array of the distinct values. -/
def npUnique (l : List ℚ) : List ℚ :=
  (l.insertionSort (· ≤ ·)).dedup

/-- The alignment method literal `"nearest" | "backward" | "forward"`. -/
inductive AlignMethod where
  | nearest
  | backward
  | forward
deriving DecidableEq

/-- `DataProviderLinked.align_index`: align a value on a target axis.

Embeds the source exactly: `diff = target_axis - index` is filtered by the
method, then `diff.argmin()` — an index into the *filtered* array — is used
to index the *unfiltered* `target_axis`. -/
def align_index (index : ℚ) (target_axis : List ℚ) (tolerance : ℚ)
    (method : AlignMethod) : ℚ :=
  let diff0 := target_axis.map (fun a => a - index)
  let diffF :=
    match method with
    | .forward => diff0.filter (fun d => 0 ≤ d)
    | .backward => diff0.filter (fun d => d ≤ 0)
    | .nearest => diff0
  let adiff := diffF.map (fun d => |d|)
  if adiff.isEmpty then
    index
  else if npMin adiff ≤ tolerance then
    target_axis.getD (npArgmin adiff) index
  else
    index

/-- `DataProviderLinked.create_aligned_global_axes`, inner loop over the
datasets after the first: `acc` is `aligned_axis_values`.  `none` models a
raised `AlignDatasetError`. -/
def createAlignedGo (tolerance : ℚ) (method : AlignMethod) (acc : List ℚ) :
    List (List ℚ) → Option (List (List ℚ))
  | [] => some []
  | axis :: rest =>
    let aligned := axis.map (fun v => align_index v acc tolerance method)
    if (npUnique aligned).length ≠ aligned.length then
      none
    else
      (createAlignedGo tolerance method (npUnique (acc ++ aligned)) rest).map
        (fun out => aligned :: out)

/-- `DataProviderLinked.create_aligned_global_axes`: the first dataset's axis
is taken unchanged and seeds `aligned_axis_values`; every later axis is mapped
through `align_index` and checked for duplicates. -/
def create_aligned_global_axes (axes : List (List ℚ)) (tolerance : ℚ)
    (method : AlignMethod) : Option (List (List ℚ)) :=
  match axes with
  | [] => some []
  | first :: rest =>
    (createAlignedGo tolerance method first rest).map (fun out => first :: out)

/-- `DataProviderLinked.align_data`, coordinate part: the `xr.concat` outer
join over the per-dataset `global` coordinates.  When all aligned axes are
equal — in particular for a single dataset — no reindexing occurs and the
common coordinate passes through unchanged; otherwise the joined coordinate
is the sorted duplicate-free pandas index union, and an axis that must be
reindexed while holding duplicate values makes xarray raise (cannot reindex
along a dimension with duplicate values), modelled as `none`.  An empty
dataset group would make `xr.concat` itself raise. -/
def align_data_axis (alignedAxes : List (List ℚ)) : Option (List ℚ) :=
  match alignedAxes with
  | [] => none
  | first :: rest =>
    if rest.all (fun a => decide (a = first)) then
      some first
    else if (first :: rest).all (fun a => decide a.Nodup) then
      some (npUnique (first :: rest).flatten)
    else
      none

theorem foldl_min_mem (xs : List ℚ) : ∀ x : ℚ, xs.foldl min x ∈ x :: xs := by
  induction xs with
  | nil => intro x; simp
  | cons y ys ih =>
    intro x
    rw [List.foldl_cons]
    have h := ih (min x y)
    rw [List.mem_cons] at h
    rcases h with h | h
    · rw [h]
      rcases min_choice x y with hm | hm <;> rw [hm] <;> simp
    · exact List.mem_cons_of_mem _ (List.mem_cons_of_mem _ h)

theorem npMin_mem (l : List ℚ) (hl : l ≠ []) : npMin l ∈ l := by
  match l with
  | [] => exact absurd rfl hl
  | x :: xs =>
    simpa only [npMin] using foldl_min_mem xs x

theorem npUnique_perm_dedup (l : List ℚ) : List.Perm (npUnique l) l.dedup :=
  List.Perm.dedup (List.perm_insertionSort (· ≤ ·) l)

theorem npUnique_length_eq_iff (l : List ℚ) :
    (npUnique l).length = l.length ↔ l.Nodup := by
  rw [(npUnique_perm_dedup l).length_eq]
  constructor
  · intro h
    have hsub : List.Sublist l.dedup l := List.dedup_sublist l
    have heq : l.dedup = l := hsub.eq_of_length h
    rw [← heq]
    exact l.nodup_dedup
  · intro h
    rw [List.dedup_eq_self.mpr h]

theorem npUnique_sorted (l : List ℚ) : (npUnique l).Sorted (· < ·) := by
  have hle : (npUnique l).Sorted (· ≤ ·) :=
    (List.sorted_insertionSort (· ≤ ·) l).sublist
      (List.dedup_sublist (l.insertionSort (· ≤ ·)))
  have hne : (npUnique l).Nodup := (l.insertionSort (· ≤ ·)).nodup_dedup
  exact (hle.and hne).imp (fun h => lt_of_le_of_ne h.1 h.2)

theorem npUnique_nodup (l : List ℚ) : (npUnique l).Nodup :=
  (l.insertionSort (· ≤ ·)).nodup_dedup

theorem mem_npUnique {x : ℚ} {l : List ℚ} : x ∈ npUnique l ↔ x ∈ l := by
  unfold npUnique
  rw [List.mem_dedup]
  exact (List.perm_insertionSort (· ≤ ·) l).mem_iff

/-- A 2-D numpy array in `(model, global)` row-major order. -/
abbrev Mat := List (List ℚ)

/-- Elementwise product of two equally shaped arrays (`data *= weight`). -/
def matElemMul (a b : Mat) : Mat :=
  a.zipWith (fun ra rb => ra.zipWith (· * ·) rb) b

/-- `glotaran.model.weight.Weight` as consumed by the data provider: target
dataset labels, optional global/model intervals and the multiplicative
value. -/
structure Weight where
  datasets : List String
  global_interval : Option (ℚ × ℚ)
  model_interval : Option (ℚ × ℚ)
  value : ℚ

/-- `DataProvider.get_axis_slice_from_interval`: swap a reversed interval,
then slice from the index closest to the lower bound up to one past the index
closest to the upper bound.  Infinite bounds (`np.isinf` branches of the
source) are not representable in the exact-rational model; the finite-bound
branches are embedded. -/
def get_axis_slice_from_interval (interval : ℚ × ℚ) (axis : List ℚ) :
    Nat × Nat :=
  let lo := min interval.1 interval.2
  let hi := max interval.1 interval.2
  (npArgmin (axis.map (fun a => |a - lo|)),
    npArgmin (axis.map (fun a => |a - hi|)) + 1)

/-- Slice for an optional interval: a missing interval selects the whole
axis (the source omits the dimension from the indexing dict). -/
def sliceFromOpt (io : Option (ℚ × ℚ)) (axis : List ℚ) : Nat × Nat :=
  match io with
  | none => (0, axis.length)
  | some i => get_axis_slice_from_interval i axis

/-- One `weight[idx] *= model_weight.value` step of
`DataProvider.add_model_weight`. -/
def applyModelWeight (w : Mat) (mw : Weight) (modelAxis globalAxis : List ℚ) :
    Mat :=
  let rs := sliceFromOpt mw.model_interval modelAxis
  let cs := sliceFromOpt mw.global_interval globalAxis
  w.mapIdx (fun i row =>
    if rs.1 ≤ i ∧ i < rs.2 then
      row.mapIdx (fun j x => if cs.1 ≤ j ∧ j < cs.2 then x * mw.value else x)
    else row)

/-- The all-ones `(model, global)` array the model weight starts from. -/
def onesMat (rows cols : Nat) : Mat :=
  List.replicate rows (List.replicate cols 1)

/-- The model weight array built by `DataProvider.add_model_weight` when the
dataset supplies no weight of its own. -/
def buildModelWeight (mws : List Weight) (modelAxis globalAxis : List ℚ) :
    Mat :=
  mws.foldl (fun w mw => applyModelWeight w mw modelAxis globalAxis)
    (onesMat modelAxis.length globalAxis.length)

/-- Python truth value of a numpy array, as evaluated by
`if self._weight[dataset_label]:`. A one-element array yields its element's
truthiness; any other size raises
`ValueError: The truth value of an array with more than one element is
ambiguous.` -/
def npTruthy (m : Mat) : Except String Bool :=
  match m.flatten with
  | [x] => .ok (decide (x ≠ 0))
  | _ => .error "The truth value of an array with more than one element is ambiguous"

/-- `DataProvider.add_model_weight`, acting on the stored weight for one
dataset: no model weight targeting the dataset leaves the weight unchanged; a
truthy stored weight is kept with a warning; otherwise the built model weight
replaces the stored one.  The `Except` error is the `ValueError` numpy raises
when the stored weight array is evaluated in boolean context with more than
one element. -/
def add_model_weight (modelWeights : List Weight) (dataset_label : String)
    (weight : Option Mat) (modelAxis globalAxis : List ℚ) :
    Except String (Option Mat) :=
  let mws := modelWeights.filter (fun w => w.datasets.contains dataset_label)
  if mws.isEmpty then .ok weight
  else
    match weight with
    | some w =>
      match npTruthy w with
      | .error e => .error e
      | .ok true => .ok (some w)
      | .ok false => .ok (some (buildModelWeight mws modelAxis globalAxis))
    | none => .ok (some (buildModelWeight mws modelAxis globalAxis))

/-- `DataProvider.get_from_dataset` on an optional array: a copy, transposed
when the stored dims are not `(model, global)`; `dimsOrdered` says whether
they already are. -/
def get_from_dataset (entry : Option Mat) (dimsOrdered : Bool) : Option Mat :=
  entry.map (fun v => if dimsOrdered then v else v.transpose)

/-- The per-dataset body of `DataProvider.__init__`: extract the weight,
apply any model weight, extract the data and multiply the weight in.  Returns
the stored `(data, weight)` pair, or the numpy `ValueError` from
`add_model_weight`. -/
def providerInit (rawData : Mat) (dataOrdered : Bool)
    (rawWeight : Option Mat) (weightOrdered : Bool)
    (modelWeights : List Weight) (label : String)
    (modelAxis globalAxis : List ℚ) : Except String (Mat × Option Mat) :=
  let w0 := get_from_dataset rawWeight weightOrdered
  match add_model_weight modelWeights label w0 modelAxis globalAxis with
  | .error e => .error e
  | .ok w =>
    let d0 := if dataOrdered then rawData else rawData.transpose
    match w with
    | none => .ok (d0, none)
    | some wm => .ok (matElemMul d0 wm, some wm)

/-! ### Heap model for construction-time aliasing

`DataProvider.__init__` mutates arrays in place (`self._data[label] *=
self._weight[label]`), but `get_from_dataset` copies (`.data.copy()`).  The
heap model makes the aliasing explicit: the scheme's arrays live in cells of
a heap, a copy allocates a fresh cell, and the in-place multiplication writes
the provider's own cell. -/

/-- A heap of array cells; references are indices. -/
abbrev Heap := List Mat

/-- Read a heap cell. -/
def readH (h : Heap) (r : Nat) : Option Mat :=
  h.get? r

/-- Allocate a fresh cell holding `m`; the new reference is the old size. -/
def allocH (h : Heap) (m : Mat) : Heap × Nat :=
  (h ++ [m], h.length)

/-- Overwrite a heap cell in place. -/
def writeH (h : Heap) (r : Nat) (m : Mat) : Heap :=
  h.set r m

/-- `DataProvider.get_from_dataset` in the heap model: reading a stored array
copies it (`.data.copy()`, transposed when the dims are not
`(model, global)`) into a freshly allocated cell. -/
def get_from_dataset_heap (h : Heap) (r : Option Nat) (dimsOrdered : Bool) :
    Heap × Option Nat :=
  match r with
  | none => (h, none)
  | some ref =>
    match readH h ref with
    | none => (h, none)
    | some v =>
      let p := allocH h (if dimsOrdered then v else v.transpose)
      (p.1, some p.2)

/-- `DataProvider.add_model_weight` in the heap model: the built model weight
is a fresh `xr.DataArray`, so the replacement path allocates; the keep path
leaves the provider's weight cell untouched. -/
def add_model_weight_heap (h : Heap) (wref : Option Nat)
    (modelWeights : List Weight) (dataset_label : String)
    (modelAxis globalAxis : List ℚ) : Except String (Heap × Option Nat) :=
  let mws := modelWeights.filter (fun w => w.datasets.contains dataset_label)
  if mws.isEmpty then .ok (h, wref)
  else
    match wref.bind (readH h) with
    | some wv =>
      match npTruthy wv with
      | .error e => .error e
      | .ok true => .ok (h, wref)
      | .ok false =>
        let p := allocH h (buildModelWeight mws modelAxis globalAxis)
        .ok (p.1, some p.2)
    | none =>
      let p := allocH h (buildModelWeight mws modelAxis globalAxis)
      .ok (p.1, some p.2)

/-- The per-dataset body of `DataProvider.__init__` in the heap model:
extract (copy) the weight, apply any model weight, extract (copy) the data,
then multiply the weight into the provider's data cell in place.  Returns the
final heap with the provider's data and weight references. -/
def providerInitHeap (h : Heap) (dataRef : Nat) (dataOrdered : Bool)
    (weightRef : Option Nat) (weightOrdered : Bool)
    (modelWeights : List Weight) (label : String)
    (modelAxis globalAxis : List ℚ) :
    Except String (Heap × Nat × Option Nat) :=
  let s1 := get_from_dataset_heap h weightRef weightOrdered
  match add_model_weight_heap s1.1 s1.2 modelWeights label modelAxis
      globalAxis with
  | .error e => .error e
  | .ok (h2, wref) =>
    match get_from_dataset_heap h2 (some dataRef) dataOrdered with
    | (h3, some dref) =>
      match wref.bind (readH h3), readH h3 dref with
      | some wv, some dv =>
        .ok (writeH h3 dref (matElemMul dv wv), dref, wref)
      | _, _ => .ok (h3, dref, wref)
    | (_, none) => .error "data not present in dataset"

/-! ### Parameter store

`ParameterGroup` is embedded as a tree of labelled groups holding parameter
lists.  The `Parameter` class itself is not among the embedded sources; its
fields and accessors are modelled from the spec and the parameter tests. -/

/-- Modelled from the spec: the restricted arithmetic-expression AST replacing
the source's string expressions evaluated by `asteval`; `ref` is a
`$label` reference translated to a `group.get(label).value` lookup. -/
inductive Expr where
  | const (q : ℚ)
  | ref (label : String)
  | add (a b : Expr)
  | sub (a b : Expr)
  | mul (a b : Expr)
  | neg (a : Expr)

/-- Modelled from the spec: the `Parameter` record `{label, value, minimum,
maximum, vary, non_negative, expression}`.  `_vary` is the stored flag behind
the `vary` accessor. -/
structure Parameter where
  label : String
  value : ℚ
  minimum : ℚ
  maximum : ℚ
  _vary : Bool
  non_negative : Bool
  expression : Option Expr

/-- Modelled from the spec: the `vary` accessor reports `False` for any
parameter with a non-null expression — a parameter with an expression is
never directly varied by the optimizer. -/
def Parameter.vary (p : Parameter) : Bool :=
  if p.expression.isSome then false else p._vary

/-- Modelled from the spec: `Parameter.get_value_and_bounds_for_optimization`
applies the log-space transform to value and bounds when `non_negative` is
set, and is the identity otherwise. -/
noncomputable def Parameter.valueAndBoundsForOptimization (p : Parameter) :
    ℝ × ℝ × ℝ :=
  if p.non_negative then
    (Real.log (p.value : ℝ), Real.log (p.minimum : ℝ), Real.log (p.maximum : ℝ))
  else
    ((p.value : ℝ), (p.minimum : ℝ), (p.maximum : ℝ))

mutual

/-- A `ParameterGroup` node: its label, its own `_parameters` dict (as an
ordered list) and its subgroup dict (as an ordered `PForest`); the root
group's label (`None` in the source) is not consulted by any embedded
operation.  The subgroup list is a mutual inductive so that the tree
operations are structurally recursive. -/
inductive PGroup where
  | node (label : String) (params : List Parameter) (children : PForest)

inductive PForest where
  | fnil
  | fcons (g : PGroup) (rest : PForest)

end

def PGroup.label : PGroup → String
  | .node l _ _ => l

def PGroup.params : PGroup → List Parameter
  | .node _ ps _ => ps

def PGroup.children : PGroup → PForest
  | .node _ _ cs => cs

/-- The subgroup dict lookup `group[element]`. -/
def findF (e : String) : PForest → Option PGroup
  | .fnil => none
  | .fcons c cs => if c.label == e then some c else findF e cs

mutual

/-- `ParameterGroup.all`: depth-first traversal in insertion order, own
parameters first, then the subgroups; yields full dotted labels.  `root` is
the accumulated label path, `none` at the top-level call. -/
def allP : PGroup → Option String → List (String × Parameter)
  | .node lbl ps cs, root =>
    let pfx :=
      match root with
      | none => ""
      | some r => r ++ lbl ++ "."
    ps.map (fun p => (pfx ++ p.label, p)) ++ allF cs pfx

def allF : PForest → String → List (String × Parameter)
  | .fnil, _ => []
  | .fcons c cs, pfx => allP c (some pfx) ++ allF cs pfx

end

/-- Python `full_label.split(".")`, recursing over the character list so that
concrete labels evaluate definitionally. -/
def splitDot : List Char → List String
  | [] => [""]
  | c :: rest =>
    let r := splitDot rest
    if c = '.' then "" :: r
    else
      match r with
      | [] => [String.mk [c]]
      | s :: ss => String.mk (c :: s.data) :: ss

/-- Split a full dotted label into its segments. -/
def splitLabel (s : String) : List String :=
  splitDot s.data

/-- Descend `ParameterGroup.get`: follow the path of group labels, then look
the final segment up in the group's own parameter dict. -/
def getGo : List String → String → PGroup → Option Parameter
  | [], lbl, g => g.params.find? (fun p => p.label == lbl)
  | e :: rest, lbl, g =>
    match findF e g.children with
    | none => none
    | some c => getGo rest lbl c

/-- `ParameterGroup.get`: split the full dotted label, pop the final segment
as the parameter label, walk the remaining path. -/
def PGroup.getParam (g : PGroup) (full : String) : Option Parameter :=
  let path := splitLabel full
  match path.getLast? with
  | none => none
  | some lbl => getGo path.dropLast lbl g

mutual

/-- Write `parameter.value = v` for the parameter at a full dotted label
(in-place mutation of the live parameter object, modelled functionally). -/
def setGo : List String → String → ℚ → PGroup → PGroup
  | [], lbl, v, .node l ps cs =>
    .node l
      (ps.map (fun p => if p.label == lbl then { p with value := v } else p)) cs
  | e :: rest, lbl, v, .node l ps cs =>
    .node l ps (setGoF rest e lbl v cs)

def setGoF : List String → String → String → ℚ → PForest → PForest
  | _, _, _, _, .fnil => .fnil
  | rest, e, lbl, v, .fcons c cs =>
    .fcons (if c.label == e then setGo rest lbl v c else c)
      (setGoF rest e lbl v cs)

end

def PGroup.setParamValue (g : PGroup) (full : String) (v : ℚ) : PGroup :=
  let path := splitLabel full
  match path.getLast? with
  | none => g
  | some lbl => setGo path.dropLast lbl v g

/-- Modelled from the spec: evaluate an expression, every `$label` reference
resolved through `group.get(label).value` against the root group; `none`
models the `ValueError` raised when an expression does not reduce to a
number (here: an unknown parameter reference). -/
def evalExpr (g : PGroup) : Expr → Option ℚ
  | .const q => some q
  | .ref lbl => (g.getParam lbl).map (fun p => p.value)
  | .add a b => (evalExpr g a).bind (fun x => (evalExpr g b).map (fun y => x + y))
  | .sub a b => (evalExpr g a).bind (fun x => (evalExpr g b).map (fun y => x - y))
  | .mul a b => (evalExpr g a).bind (fun x => (evalExpr g b).map (fun y => x * y))
  | .neg a => (evalExpr g a).map (fun x => -x)

/-- `ParameterGroup.update_parameter_expression`: walk `all()` in traversal
order and, for every parameter with an expression, evaluate it against the
current group state and store the value; `none` models the raised
`ValueError`. -/
def update_parameter_expression (g : PGroup) : Option PGroup :=
  (allP g none).foldlM
    (fun acc lp =>
      match lp.2.expression with
      | none => some acc
      | some e => (evalExpr acc e).map (fun v => acc.setParamValue lp.1 v))
    g

/-- The collection loop of
`ParameterGroup.get_label_value_and_bounds_arrays`: append label, transformed
value and transformed bounds for every parameter passing
`not exclude_non_vary or parameter.vary`. -/
noncomputable def collectLabelValueBounds :
    List (String × Parameter) → Bool →
      List String × List ℝ × List ℝ × List ℝ
  | [], _ => ([], [], [], [])
  | lp :: rest, exclude_non_vary =>
    let tail := collectLabelValueBounds rest exclude_non_vary
    if !exclude_non_vary || lp.2.vary then
      let vb := lp.2.valueAndBoundsForOptimization
      (lp.1 :: tail.1, vb.1 :: tail.2.1, vb.2.1 :: tail.2.2.1,
        vb.2.2 :: tail.2.2.2)
    else
      tail

/-- `ParameterGroup.get_label_value_and_bounds_arrays`: update the
expressions, then collect labels, transformed values and transformed bounds
over the `all()` traversal. -/
noncomputable def get_label_value_and_bounds_arrays (g : PGroup)
    (exclude_non_vary : Bool) :
    Option (List String × List ℝ × List ℝ × List ℝ) :=
  (update_parameter_expression g).map
    (fun g2 => collectLabelValueBounds (allP g2 none) exclude_non_vary)

/-! ### Optimizer-facing parameter transform

The `Parameter` optimization read/write paths are modelled from the spec over
the reals (numpy `log`/`exp` idealized as `Real.log`/`Real.exp`). -/

/-- Modelled from the spec: the `Parameter` fields consulted by the
optimization transform. -/
structure OptParameter where
  value : ℝ
  minimum : ℝ
  maximum : ℝ
  non_negative : Bool

/-- Modelled from the spec: `Parameter.get_value_and_bounds_for_optimization`
— the read path applies the log transform to value and bounds when
`non_negative` is set. -/
noncomputable def OptParameter.get_value_and_bounds_for_optimization
    (p : OptParameter) : ℝ × ℝ × ℝ :=
  if p.non_negative then
    (Real.log p.value, Real.log p.minimum, Real.log p.maximum)
  else
    (p.value, p.minimum, p.maximum)

/-- Modelled from the spec: `Parameter.set_value_from_optimization` — the
write path applies the inverse (exp) transform when `non_negative` is set. -/
noncomputable def OptParameter.set_value_from_optimization (p : OptParameter)
    (v : ℝ) : OptParameter :=
  { p with value := if p.non_negative then Real.exp v else v }

/-! ### Relations

The matrix reduction and clp reconstruction for `Relation` entries live in
modules that are not among the embedded sources; they are modelled from the
spec: inside the interval the target column is dropped from the reduced
matrix and the target's estimate is reconstructed as
`scale * estimate[source]` after the solve. -/

/-- `glotaran.model.Relation`: source and target clp labels, the scale
parameter label, and the applicability intervals (an empty list — no
declared interval — applies everywhere, as in the relation test model). -/
structure Relation where
  source : String
  target : String
  parameter : String
  interval : List (ℚ × ℚ)

/-- Modelled from the spec: a relation applies at the current global-axis
value when the value lies inside one of its intervals, or always when none
is declared. -/
def Relation.applies (r : Relation) (v : ℚ) : Bool :=
  r.interval.isEmpty ||
    r.interval.any (fun i => decide (i.1 ≤ v) && decide (v ≤ i.2))

/-- Modelled from the spec: the reduced matrix's clp labels — every
applicable relation's target column is dropped. -/
def reduceClpLabels (labels : List String) (relations : List Relation)
    (v : ℚ) : List String :=
  labels.filter
    (fun l => !(relations.any (fun r => r.applies v && r.target == l)))

/-- Modelled from the spec: after the linear solve, append each applicable
relation's target clp, reconstructed as `scale * estimate[source]`. -/
def retrieveRelatedClps (pval : String → ℚ) (relations : List Relation)
    (v : ℚ) (clps : List (String × ℚ)) : List (String × ℚ) :=
  clps ++ (relations.filter (fun r => r.applies v)).map
    (fun r => (r.target, pval r.parameter * ((clps.lookup r.source).getD 0)))

theorem readH_append (h t : Heap) (r : Nat) (hr : r < h.length) :
    readH (h ++ t) r = readH h r :=
  List.get?_append hr

theorem readH_write_ne (h : Heap) (i r : Nat) (m : Mat) (hne : i ≠ r) :
    readH (writeH h i m) r = readH h r :=
  List.get?_set_ne m h hne

theorem gfd_heap_extends (h : Heap) (r : Option Nat) (o : Bool) :
    ∃ t, (get_from_dataset_heap h r o).1 = h ++ t := by
  cases r with
  | none => exact ⟨[], by simp [get_from_dataset_heap]⟩
  | some ref =>
    cases hrd : readH h ref with
    | none => exact ⟨[], by simp [get_from_dataset_heap, hrd]⟩
    | some v =>
      exact ⟨[if o then v else v.transpose],
        by simp [get_from_dataset_heap, hrd, allocH]⟩

theorem amw_heap_extends (h : Heap) (wref : Option Nat)
    (modelWeights : List Weight) (lbl : String) (ma ga : List ℚ)
    (h' : Heap) (wref' : Option Nat)
    (hok : add_model_weight_heap h wref modelWeights lbl ma ga
        = .ok (h', wref')) : ∃ t, h' = h ++ t := by
  simp only [add_model_weight_heap] at hok
  split at hok
  all_goals try split at hok
  all_goals try split at hok
  all_goals first
    | (rw [Except.ok.injEq, Prod.mk.injEq] at hok
       first
         | (refine ⟨[], ?_⟩
            rw [List.append_nil, ← hok.1]
            done)
         | exact ⟨_, hok.1.symm⟩)
    | cases hok

/-- Claim C10: constructing the data provider never mutates the scheme's
source arrays.  `get_from_dataset` copies into fresh cells, so the in-place
weight multiplication touches only the provider's private copy: every heap
cell that existed before construction reads the same afterwards. -/
theorem provider_init_preserves_source_arrays
    (h : Heap) (dataRef : Nat) (dataOrdered : Bool) (weightRef : Option Nat)
    (weightOrdered : Bool) (modelWeights : List Weight) (label : String)
    (modelAxis globalAxis : List ℚ) (hfin : Heap) (dref : Nat)
    (wref : Option Nat)
    (hok : providerInitHeap h dataRef dataOrdered weightRef weightOrdered
        modelWeights label modelAxis globalAxis = .ok (hfin, dref, wref)) :
    ∀ r, r < h.length → readH hfin r = readH h r := by
  intro r hr
  simp only [providerInitHeap] at hok
  obtain ⟨t1, ht1⟩ := gfd_heap_extends h weightRef weightOrdered
  rcases hamw : add_model_weight_heap
      (get_from_dataset_heap h weightRef weightOrdered).1
      (get_from_dataset_heap h weightRef weightOrdered).2
      modelWeights label modelAxis globalAxis with e | p2
  · rw [hamw] at hok
    cases hok
  · obtain ⟨h2, wref2⟩ := p2
    rw [hamw] at hok
    obtain ⟨t2, ht2⟩ := amw_heap_extends _ _ _ _ _ _ _ _ hamw
    have hh2 : h2 = h ++ (t1 ++ t2) := by rw [ht2, ht1, List.append_assoc]
    have hrlen : r < h2.length := by
      rw [hh2, List.length_append]
      omega
    have hread2 : readH h2 r = readH h r := by
      rw [hh2]
      exact readH_append h (t1 ++ t2) r hr
    rcases hrd : readH h2 dataRef with _ | v
    · simp only [get_from_dataset_heap, hrd] at hok
      cases hok
    · simp only [get_from_dataset_heap, hrd, allocH] at hok
      set c := if dataOrdered then v else v.transpose with hc
      have hread3 : readH (h2 ++ [c]) r = readH h r := by
        rw [readH_append h2 [c] r hrlen]
        exact hread2
      rcases hwv : wref2.bind (readH (h2 ++ [c])) with _ | wv
      · rw [hwv] at hok
        rcases hdv : readH (h2 ++ [c]) h2.length with _ | dv
        · rw [hdv] at hok
          rw [Except.ok.injEq, Prod.mk.injEq] at hok
          rw [← hok.1]
          exact hread3
        · rw [hdv] at hok
          rw [Except.ok.injEq, Prod.mk.injEq] at hok
          rw [← hok.1]
          exact hread3
      · rw [hwv] at hok
        rcases hdv : readH (h2 ++ [c]) h2.length with _ | dv
        · rw [hdv] at hok
          rw [Except.ok.injEq, Prod.mk.injEq] at hok
          rw [← hok.1]
          exact hread3
        · rw [hdv] at hok
          rw [Except.ok.injEq, Prod.mk.injEq] at hok
          rw [← hok.1]
          rw [readH_write_ne (h2 ++ [c]) h2.length r _ (by omega)]
          exact hread3

/-- Claim C10, witness: a concrete two-cell heap holding a dataset's data and
weight; after construction both source cells read unchanged. -/
theorem provider_init_preserves_source_arrays_witness :
    readH (writeH ([[[2]], [[3]]] ++ [[[3]]] ++ [[[2]]]) 3
        (matElemMul [[2]] [[3]])) 0 = readH [[[2]], [[3]]] 0 := by
  have h := provider_init_preserves_source_arrays [[[2]], [[3]]] 0 true
    (some 1) true [] "dataset1" [0] [0]
    (writeH ([[[2]], [[3]]] ++ [[[3]]] ++ [[[2]]]) 3 (matElemMul [[2]] [[3]]))
    3 (some 2) rfl
  exact h 0 (by simp)

theorem createAlignedGo_nodup (tol : ℚ) (method : AlignMethod) :
    ∀ (rest : List (List ℚ)) (acc : List ℚ) (out : List (List ℚ)),
      createAlignedGo tol method acc rest = some out → ∀ a ∈ out, a.Nodup := by
  intro rest
  induction rest with
  | nil =>
    intro acc out h a ha
    simp only [createAlignedGo, Option.some.injEq] at h
    subst h
    simp at ha
  | cons axis rest ih =>
    intro acc out h a ha
    simp only [createAlignedGo] at h
    split at h
    · exact absurd h (by simp)
    · rename_i hlen
      rw [Option.map_eq_some'] at h
      obtain ⟨out', hout', rfl⟩ := h
      rw [List.mem_cons] at ha
      rcases ha with rfl | ha
      · exact (npUnique_length_eq_iff _).mp (not_ne_iff.mp hlen)
      · exact ih _ out' hout' a ha

theorem createAlignedGo_length (tol : ℚ) (method : AlignMethod) :
    ∀ (rest : List (List ℚ)) (acc : List ℚ) (out : List (List ℚ)),
      createAlignedGo tol method acc rest = some out → out.length = rest.length := by
  intro rest
  induction rest with
  | nil =>
    intro acc out h
    simp only [createAlignedGo, Option.some.injEq] at h
    subst h
    rfl
  | cons axis rest ih =>
    intro acc out h
    simp only [createAlignedGo] at h
    split at h
    · exact absurd h (by simp)
    · rw [Option.map_eq_some'] at h
      obtain ⟨out', hout', rfl⟩ := h
      simp [ih _ out' hout']

/-- Claim C1 (amended): on successful return of `create_aligned_global_axes`
there is one aligned axis per dataset, the first dataset's aligned axis is its
raw global axis taken unchanged and unchecked, and every later dataset's
aligned axis has pairwise-distinct values (a duplicate — in particular two
distinct local values mapped to the same shared coordinate — raises
`AlignDatasetError` instead). -/
theorem create_aligned_global_axes_nodup_after_first
    (axes : List (List ℚ)) (tol : ℚ) (method : AlignMethod)
    (res : List (List ℚ))
    (h : create_aligned_global_axes axes tol method = some res) :
    res.length = axes.length ∧ res.head? = axes.head? ∧
      ∀ a ∈ res.tail, a.Nodup := by
  match axes with
  | [] =>
    simp only [create_aligned_global_axes, Option.some.injEq] at h
    subst h
    simp
  | first :: rest =>
    simp only [create_aligned_global_axes] at h
    rw [Option.map_eq_some'] at h
    obtain ⟨out, hout, rfl⟩ := h
    refine ⟨by simp [createAlignedGo_length tol method rest first out hout], rfl, ?_⟩
    intro a ha
    exact createAlignedGo_nodup tol method rest first out hout a ha

/-- Claim C1, counterexample to the claim as stated: a first dataset whose raw
global axis already contains a duplicate value passes through
`create_aligned_global_axes` without any error, so not every dataset's aligned
global axis is pairwise-distinct on successful return. -/
theorem create_aligned_global_axes_first_dup_counterexample :
    create_aligned_global_axes [[1, 1]] 0 .nearest = some [[1, 1]] ∧
      ¬ ([1, 1] : List ℚ).Nodup := by
  exact ⟨rfl, by simp⟩

/-- Claim C1, witness: a successful two-dataset alignment where the theorem's
conclusions are evaluated concretely. -/
theorem create_aligned_global_axes_nodup_after_first_witness :
    ([[1, 2], [2, 5]] : List (List ℚ)).length = [[1, 2], [5/2, 5]].length ∧
      ([[1, 2], [2, 5]] : List (List ℚ)).head? = [[1, 2], [5/2, 5]].head? ∧
      ([2, 5] : List ℚ).Nodup := by
  have h := create_aligned_global_axes_nodup_after_first
    [[1, 2], [5/2, 5]] 1 .nearest [[1, 2], [2, 5]]
    (by norm_num [create_aligned_global_axes, createAlignedGo, align_index,
      npMin, npArgmin, npUnique, List.indexOf, List.findIdx, List.findIdx.go,
      List.insertionSort, List.orderedInsert, List.dedup, min_def,
      Bool.cond_eq_ite, beq_iff_eq, abs_of_nonneg, abs_of_nonpos, abs_sub_comm])
  exact ⟨h.1, h.2.1, h.2.2 [2, 5] (by simp)⟩

/-- Claim C2: evaluation of `align_index` at a failing input.  With
`index = 9`, `target_axis = [0, 10]`, `tolerance = 2`, `method = forward`, the
claim demands the closest candidate `a ≥ 9` within tolerance, namely `10`; the
code filters the difference array, takes the argmin of the filtered array, but
indexes the unfiltered axis with it, returning `0`, which lies below `9` and
at distance `9 > 2`. -/
theorem align_index_forward_divergence :
    align_index 9 [0, 10] 2 .forward = 0 ∧ ¬ ((9:ℚ) ≤ 0) ∧ ¬ (|(0:ℚ) - 9| ≤ 2) := by
  refine ⟨?_, by norm_num, by norm_num⟩
  norm_num [align_index, npMin, npArgmin, List.indexOf, List.findIdx,
    List.findIdx.go]

/-- Claim C9, counterexample to the claim as stated: a single dataset whose
raw global axis is unsorted constructs successfully —
`create_aligned_global_axes` never checks the first dataset and `xr.concat`
performs no reindexing when all (here: one) aligned axes are equal, passing
the coordinate through unchanged — so the aligned global axis of a
successfully constructed provider need not be sorted. -/
theorem align_data_axis_passthrough_counterexample :
    create_aligned_global_axes [[3, 1]] 0 .nearest = some [[3, 1]] ∧
      align_data_axis [[3, 1]] = some [3, 1] ∧
      ¬ ([3, 1] : List ℚ).Sorted (· < ·) := by
  refine ⟨rfl, rfl, ?_⟩
  intro hs
  have h31 : (3:ℚ) < 1 := (List.pairwise_cons.mp hs).1 1 (by simp)
  norm_num at h31

/-- Claim C9 (amended): on successful construction the aligned global axis
holds exactly the union of the datasets' aligned global-axis values; when
the per-dataset aligned axes are not all equal — so `xr.concat` actually
reindexes — it is in addition strictly increasing and duplicate-free; when
they are all equal the coordinate passes through unchanged as the common
aligned axis, so it is sorted and duplicate-free only if that axis is. -/
theorem aligned_global_axis_union_and_reindex_sorted
    (axes : List (List ℚ)) (tol : ℚ) (method : AlignMethod)
    (res : List (List ℚ)) (axis : List ℚ)
    (hc : create_aligned_global_axes axes tol method = some res)
    (ha : align_data_axis res = some axis) :
    (∀ x : ℚ, x ∈ axis ↔ ∃ a ∈ res, x ∈ a) ∧
      (∀ first rest, res = first :: rest →
        rest.all (fun a => decide (a = first)) = false →
        axis.Sorted (· < ·) ∧ axis.Nodup) ∧
      (∀ first rest, res = first :: rest →
        rest.all (fun a => decide (a = first)) = true →
        axis = first) := by
  rcases res with _ | ⟨first, rest⟩
  · simp [align_data_axis] at ha
  · simp only [align_data_axis] at ha
    split at ha
    · rename_i hall
      rw [Option.some.injEq] at ha
      subst ha
      have hEq : ∀ a ∈ rest, a = first := by
        intro a hmem
        exact of_decide_eq_true (List.all_eq_true.mp hall a hmem)
      refine ⟨?_, ?_, ?_⟩
      · intro x
        constructor
        · intro hx
          exact ⟨first, List.mem_cons_self _ _, hx⟩
        · rintro ⟨a, hmem, hx⟩
          rcases List.mem_cons.mp hmem with rfl | hmem
          · exact hx
          · rw [hEq a hmem] at hx
            exact hx
      · intro f r hfr hfalse
        rw [List.cons.injEq] at hfr
        obtain ⟨h1, h2⟩ := hfr
        subst h1
        subst h2
        rw [hall] at hfalse
        cases hfalse
      · intro f r hfr _
        rw [List.cons.injEq] at hfr
        exact hfr.1
    · split at ha
      · rename_i hall hnodup
        rw [Option.some.injEq] at ha
        subst ha
        refine ⟨?_, ?_, ?_⟩
        · intro x
          rw [mem_npUnique, List.mem_flatten]
        · intro f r hfr hfalse
          exact ⟨npUnique_sorted _, npUnique_nodup _⟩
        · intro f r hfr htrue
          rw [List.cons.injEq] at hfr
          obtain ⟨h1, h2⟩ := hfr
          subst h1
          subst h2
          exact absurd htrue hall
      · cases ha

/-- Claim C3: evaluation of `add_model_weight` at a failing input.  A dataset
that supplies a 2 by 2 weight while a model `Weight` targets the same dataset
makes `if self._weight[dataset_label]:` evaluate a four-element numpy array in
boolean context, which raises `ValueError` instead of warning and keeping the
dataset weight. -/
theorem add_model_weight_conflict_raises :
    add_model_weight [⟨["dataset1"], none, none, 2⟩] "dataset1"
      (some [[1, 1], [1, 1]]) [0, 1] [0, 1] =
      .error "The truth value of an array with more than one element is ambiguous" := by
  rfl

/-- Claim C8: on successful construction the stored data is the raw data —
transposed when its dims were not `(model, global)` — multiplied elementwise
by the effective weight whenever one is present, and the raw data unchanged
when none is. -/
theorem get_data_returns_weighted_data
    (rawData : Mat) (dataOrdered : Bool) (rawWeight : Option Mat)
    (weightOrdered : Bool) (modelWeights : List Weight) (label : String)
    (modelAxis globalAxis : List ℚ) (d : Mat) (w : Option Mat)
    (h : providerInit rawData dataOrdered rawWeight weightOrdered modelWeights
        label modelAxis globalAxis = .ok (d, w)) :
    (w = none → d = (if dataOrdered then rawData else rawData.transpose)) ∧
      ∀ wm, w = some wm →
        d = matElemMul (if dataOrdered then rawData else rawData.transpose) wm := by
  simp only [providerInit] at h
  rcases hadd : add_model_weight modelWeights label
      (get_from_dataset rawWeight weightOrdered) modelAxis globalAxis with e | w'
  · rw [hadd] at h
    exact absurd h (by simp)
  · rw [hadd] at h
    cases w' with
    | none =>
      rw [Except.ok.injEq, Prod.mk.injEq] at h
      obtain ⟨rfl, rfl⟩ := h
      exact ⟨fun _ => rfl, fun wm hwm => by simp at hwm⟩
    | some wm =>
      rw [Except.ok.injEq, Prod.mk.injEq] at h
      obtain ⟨rfl, rfl⟩ := h
      refine ⟨fun hwn => by simp at hwn, fun wm' hwm => ?_⟩
      rw [Option.some.injEq] at hwm
      subst hwm
      rfl

/-- Claim C8, witness: a dataset-supplied weight is multiplied into the
data. -/
theorem get_data_returns_weighted_data_witness :
    matElemMul [[2]] [[3]] =
      matElemMul (if true then ([[2]] : Mat) else List.transpose [[2]]) [[3]] :=
  (get_data_returns_weighted_data [[2]] true (some [[3]]) true [] "dataset1"
    [0] [0] (matElemMul [[2]] [[3]]) (some [[3]]) rfl).2 [[3]] rfl

/-- Claim C9, witness: a two-dataset alignment whose aligned axes differ, so
`xr.concat` reindexes and the shared axis is the sorted duplicate-free
union. -/
theorem aligned_global_axis_union_and_reindex_sorted_witness :
    ((2:ℚ) ∈ ([1, 2, 5] : List ℚ) ↔ ∃ a ∈ [[1, 2], [2, 5]], (2:ℚ) ∈ a) ∧
      ([1, 2, 5] : List ℚ).Sorted (· < ·) ∧ ([1, 2, 5] : List ℚ).Nodup := by
  have h := aligned_global_axis_union_and_reindex_sorted
    [[1, 2], [5/2, 5]] 1 .nearest [[1, 2], [2, 5]] [1, 2, 5]
    (by norm_num [create_aligned_global_axes, createAlignedGo, align_index,
      npMin, npArgmin, npUnique, List.indexOf, List.findIdx, List.findIdx.go,
      List.insertionSort, List.orderedInsert, List.dedup, min_def,
      Bool.cond_eq_ite, beq_iff_eq, abs_of_nonneg, abs_of_nonpos, abs_sub_comm])
    rfl
  exact ⟨h.1 2, h.2.1 [1, 2] [[2, 5]] rfl rfl⟩

theorem collect_exclude_eq (ps : List (String × Parameter)) :
    collectLabelValueBounds ps true =
      ((ps.filter (fun lp => lp.2.vary)).map Prod.fst,
        (ps.filter (fun lp => lp.2.vary)).map
          (fun lp => lp.2.valueAndBoundsForOptimization.1),
        (ps.filter (fun lp => lp.2.vary)).map
          (fun lp => lp.2.valueAndBoundsForOptimization.2.1),
        (ps.filter (fun lp => lp.2.vary)).map
          (fun lp => lp.2.valueAndBoundsForOptimization.2.2)) := by
  induction ps with
  | nil => rfl
  | cons lp rest ih =>
    simp only [collectLabelValueBounds, ih]
    by_cases hv : lp.2.vary
    · simp [hv, List.filter_cons]
    · simp [hv, List.filter_cons]

/-- Claim C4 (amended): called with `exclude_non_vary = true` — as the
optimizer does — `get_label_value_and_bounds_arrays` returns four parallel
equal-length arrays holding exactly the parameters whose `vary` accessor is
true, in depth-first insertion order of the (expression-updated) tree;
because the accessor reports false for every parameter with a non-null
expression, these are exactly the `vary=true`, null-expression parameters.
With the source's default `exclude_non_vary = False` every parameter is
included. -/
theorem get_label_value_and_bounds_arrays_exclude_spec
    (g : PGroup) (ls : List String) (vs lbs ubs : List ℝ)
    (h : get_label_value_and_bounds_arrays g true = some (ls, vs, lbs, ubs)) :
    ls.length = vs.length ∧ vs.length = lbs.length ∧
      lbs.length = ubs.length ∧
      ∃ g2, update_parameter_expression g = some g2 ∧
        ls = ((allP g2 none).filter (fun lp => lp.2.vary)).map Prod.fst ∧
        vs = ((allP g2 none).filter (fun lp => lp.2.vary)).map
            (fun lp => lp.2.valueAndBoundsForOptimization.1) ∧
        lbs = ((allP g2 none).filter (fun lp => lp.2.vary)).map
            (fun lp => lp.2.valueAndBoundsForOptimization.2.1) ∧
        ubs = ((allP g2 none).filter (fun lp => lp.2.vary)).map
            (fun lp => lp.2.valueAndBoundsForOptimization.2.2) ∧
        ∀ lp ∈ (allP g2 none).filter (fun lp => lp.2.vary),
          lp.2._vary = true ∧ lp.2.expression = none := by
  unfold get_label_value_and_bounds_arrays at h
  rcases hupd : update_parameter_expression g with _ | g2
  · rw [hupd] at h
    cases h
  · rw [hupd] at h
    rw [Option.map_some', Option.some.injEq, collect_exclude_eq] at h
    cases h
    refine ⟨by simp, by simp, by simp, g2, rfl, rfl, rfl, rfl, rfl, ?_⟩
    intro lp hlp
    have hv : lp.2.vary = true := (List.mem_filter.mp hlp).2
    unfold Parameter.vary at hv
    by_cases he : lp.2.expression.isSome
    · rw [if_pos he] at hv
      cases hv
    · rw [if_neg he] at hv
      exact ⟨hv, Option.not_isSome_iff_eq_none.mp he⟩

/-- A `vary=False` plain parameter, for the claim C4 counterexample. -/
def nonVaryParam : Parameter := ⟨"1", 3, 0, 5, false, false, none⟩

/-- A root group holding only `nonVaryParam`. -/
def nonVaryGroup : PGroup := .node "" [nonVaryParam] .fnil

/-- Claim C4, counterexample to the claim as stated: under the source's
default `exclude_non_vary = False`, `get_label_value_and_bounds_arrays`
includes a `vary=False` parameter, so it does not return exactly the
`vary=true`, null-expression parameters. -/
theorem get_label_value_and_bounds_arrays_default_includes_nonvary :
    (get_label_value_and_bounds_arrays nonVaryGroup false).map
        (fun q => q.1) = some ["1"] ∧
      nonVaryParam.vary = false ∧
      ((allP nonVaryGroup none).filter (fun lp => lp.2.vary)).map
        Prod.fst = [] := by
  exact ⟨rfl, rfl, rfl⟩

/-- A `vary=True` plain parameter, for the claim C4 witness. -/
def varyParam : Parameter := ⟨"1", 3, 1, 5, true, false, none⟩

/-- A root group holding only `varyParam`. -/
def varyGroup : PGroup := .node "" [varyParam] .fnil

/-- Claim C4, witness: the labels and values arrays of a concrete call have
equal length. -/
theorem get_label_value_and_bounds_arrays_exclude_spec_witness :
    (["1"] : List String).length = ([((3:ℚ):ℝ)] : List ℝ).length :=
  (get_label_value_and_bounds_arrays_exclude_spec varyGroup ["1"]
    [((3:ℚ):ℝ)] [((1:ℚ):ℝ)] [((5:ℚ):ℝ)] rfl).1

/-- The parameter `b.1 = 0.25` of the expression-evaluation scenario. -/
def exprParamB1 : Parameter := ⟨"1", 1/4, 0, 1, true, false, none⟩

/-- The parameter `b.2` defined by the expression `1 - $b.1` (stored value
deliberately stale so that the update visibly recomputes it). -/
def exprParamB2 : Parameter :=
  ⟨"2", 0, 0, 1, true, false, some (.sub (.const 1) (.ref "b.1"))⟩

/-- The group `{b: [b.1, b.2]}` of the expression-evaluation scenario. -/
def exprGroup : PGroup :=
  .node "" [] (.fcons (.node "b" [exprParamB1, exprParamB2] .fnil) .fnil)

/-- Claim C6: after `update_parameter_expression` on the group with
`b.1 = 0.25` and `b.2 = '1 - $b.1'`, the value of `b.2` is `0.75`, `b.2.vary`
is false and `b.1.vary` is true; and in general the `vary` accessor of any
parameter with a non-null expression reports false, excluding it from direct
variation by the optimizer. -/
theorem expression_evaluation_determinism :
    (((update_parameter_expression exprGroup).bind
        (fun g => g.getParam "b.2")).map Parameter.value = some (3/4) ∧
      ((update_parameter_expression exprGroup).bind
        (fun g => g.getParam "b.2")).map Parameter.vary = some false ∧
      ((update_parameter_expression exprGroup).bind
        (fun g => g.getParam "b.1")).map Parameter.vary = some true) ∧
      ∀ p : Parameter, p.expression ≠ none → p.vary = false := by
  refine ⟨⟨?_, rfl, rfl⟩, ?_⟩
  · have h : ((update_parameter_expression exprGroup).bind
        (fun g => g.getParam "b.2")).map Parameter.value
        = some (1 - 1/4) := rfl
    rw [h, Option.some.injEq]
    norm_num
  · intro p hp
    unfold Parameter.vary
    cases hpe : p.expression with
    | none => exact absurd hpe hp
    | some e => simp [hpe]

/-- Claim C6, witness: the expression-bearing parameter `b.2` is reported as
not varied. -/
theorem expression_evaluation_determinism_witness :
    Parameter.vary exprParamB2 = false :=
  expression_evaluation_determinism.2 exprParamB2
    (fun hc => Option.noConfusion hc)

/-- Claim C7: the non-negative transform round-trips —
`set_value_from_optimization (get_value_and_bounds_for_optimization _).1`
restores any positive value, for both settings of `non_negative` — and for
value 2 with `non_negative` the transformed optimization value differs
from 2. -/
theorem non_negative_transform_round_trip :
    (∀ p : OptParameter, 0 < p.value →
        (p.set_value_from_optimization
          p.get_value_and_bounds_for_optimization.1).value = p.value) ∧
      (OptParameter.get_value_and_bounds_for_optimization
        ⟨2, 3, 6, true⟩).1 ≠ 2 := by
  constructor
  · intro p hp
    unfold OptParameter.set_value_from_optimization
      OptParameter.get_value_and_bounds_for_optimization
    by_cases hnn : p.non_negative
    · simp [hnn, Real.exp_log hp]
    · simp [hnn]
  · unfold OptParameter.get_value_and_bounds_for_optimization
    simp only []
    have h2 : Real.log 2 < 2 - 1 :=
      @Real.log_lt_sub_one_of_pos 2 (by norm_num) (by norm_num)
    have h : Real.log 2 < 2 := by linarith
    simpa using ne_of_lt h

/-- Claim C7, witness: the round trip restores the value 1 under the
non-negative transform. -/
theorem non_negative_transform_round_trip_witness :
    ((⟨1, 0, 2, true⟩ : OptParameter).set_value_from_optimization
        (⟨1, 0, 2, true⟩ : OptParameter).get_value_and_bounds_for_optimization.1).value
      = (⟨1, 0, 2, true⟩ : OptParameter).value :=
  non_negative_transform_round_trip.1 ⟨1, 0, 2, true⟩ one_pos

theorem lookup_graph (est : String → ℚ) :
    ∀ (l : List String) (x : String), x ∈ l →
      (l.map (fun k => (k, est k))).lookup x = some (est x) := by
  intro l
  induction l with
  | nil => intro x hx; cases hx
  | cons a l ih =>
    intro x hx
    by_cases hxa : x = a
    · subst hxa
      simp [List.lookup]
    · rw [List.mem_cons] at hx
      rcases hx with rfl | hx
      · exact absurd rfl hxa
      · simp only [List.map_cons, List.lookup, beq_eq_false_iff_ne.mpr hxa]
        exact ih x hx

theorem lookup_append_left {l1 l2 : List (String × ℚ)} {k : String} {v : ℚ}
    (h : l1.lookup k = some v) : (l1 ++ l2).lookup k = some v := by
  induction l1 with
  | nil => cases h
  | cons a l ih =>
    rcases a with ⟨ka, va⟩
    by_cases hk : k = ka
    · subst hk
      simpa [List.lookup] using h
    · rw [List.cons_append]
      simp only [List.lookup, beq_eq_false_iff_ne.mpr hk] at h ⊢
      exact ih h

theorem lookup_append_right {l1 l2 : List (String × ℚ)} {k : String}
    (h : k ∉ l1.map Prod.fst) : (l1 ++ l2).lookup k = l2.lookup k := by
  induction l1 with
  | nil => rfl
  | cons a l ih =>
    rcases a with ⟨ka, va⟩
    simp only [List.map_cons, List.mem_cons, not_or] at h
    rw [List.cons_append]
    simp only [List.lookup, beq_eq_false_iff_ne.mpr h.1]
    exact ih h.2

/-- Claim C5: with the single relation `(s1, s2, scale)` applicable at the
current global-axis value, `s2` is dropped from the reduced clp labels while
remaining in the unreduced labels; and for any solved estimates over the
reduced labels, the final clps contain `s2` with
`clp[s2] = scale * clp[s1]` exactly, `clp[s1]` being the solved estimate. -/
theorem relation_reconstruction
    (labels : List String) (s1 s2 pl : String) (ivl : List (ℚ × ℚ)) (v : ℚ)
    (pval : String → ℚ) (est : String → ℚ)
    (happ : Relation.applies ⟨s1, s2, pl, ivl⟩ v = true)
    (hne : s1 ≠ s2) (hs1 : s1 ∈ labels) (hs2 : s2 ∈ labels) :
    s2 ∉ reduceClpLabels labels [⟨s1, s2, pl, ivl⟩] v ∧
      s2 ∈ labels ∧
      s2 ∈ (retrieveRelatedClps pval [⟨s1, s2, pl, ivl⟩] v
          ((reduceClpLabels labels [⟨s1, s2, pl, ivl⟩] v).map
            (fun l => (l, est l)))).map Prod.fst ∧
      (retrieveRelatedClps pval [⟨s1, s2, pl, ivl⟩] v
          ((reduceClpLabels labels [⟨s1, s2, pl, ivl⟩] v).map
            (fun l => (l, est l)))).lookup s1 = some (est s1) ∧
      (retrieveRelatedClps pval [⟨s1, s2, pl, ivl⟩] v
          ((reduceClpLabels labels [⟨s1, s2, pl, ivl⟩] v).map
            (fun l => (l, est l)))).lookup s2
        = some (pval pl * est s1) := by
  have hs2red : s2 ∉ reduceClpLabels labels [⟨s1, s2, pl, ivl⟩] v := by
    intro hmem
    have := List.of_mem_filter hmem
    simp [happ] at this
  have hs1red : s1 ∈ reduceClpLabels labels [⟨s1, s2, pl, ivl⟩] v := by
    apply List.mem_filter.mpr
    refine ⟨hs1, ?_⟩
    simp [happ, beq_eq_false_iff_ne.mpr (Ne.symm hne)]
  have hsolved : ((reduceClpLabels labels [⟨s1, s2, pl, ivl⟩] v).map
      (fun l => (l, est l))).lookup s1 = some (est s1) :=
    lookup_graph est _ s1 hs1red
  have hkeys : ∀ x, x ∈ ((reduceClpLabels labels [⟨s1, s2, pl, ivl⟩] v).map
      (fun l => (l, est l))).map Prod.fst ↔
        x ∈ reduceClpLabels labels [⟨s1, s2, pl, ivl⟩] v := by
    intro x
    simp [List.map_map, Function.comp]
  refine ⟨hs2red, hs2, ?_, ?_, ?_⟩
  · unfold retrieveRelatedClps
    simp [happ]
  · unfold retrieveRelatedClps
    exact lookup_append_left hsolved
  · unfold retrieveRelatedClps
    rw [lookup_append_right (by rw [hkeys]; exact hs2red)]
    simp [happ, hsolved, List.lookup]

/-- Claim C5, witness: the relation `(s1, s2, parameter)` with scale value 2
over labels `[s1, s2]` at index 1, with solved estimate 5 for `s1`. -/
theorem relation_reconstruction_witness :
    "s2" ∉ reduceClpLabels ["s1", "s2"] [⟨"s1", "s2", "3", []⟩] 1 ∧
      "s2" ∈ (["s1", "s2"] : List String) ∧
      "s2" ∈ (retrieveRelatedClps (fun _ => 2) [⟨"s1", "s2", "3", []⟩] 1
          ((reduceClpLabels ["s1", "s2"] [⟨"s1", "s2", "3", []⟩] 1).map
            (fun l => (l, (5:ℚ))))).map Prod.fst ∧
      (retrieveRelatedClps (fun _ => 2) [⟨"s1", "s2", "3", []⟩] 1
          ((reduceClpLabels ["s1", "s2"] [⟨"s1", "s2", "3", []⟩] 1).map
            (fun l => (l, (5:ℚ))))).lookup "s1" = some 5 ∧
      (retrieveRelatedClps (fun _ => 2) [⟨"s1", "s2", "3", []⟩] 1
          ((reduceClpLabels ["s1", "s2"] [⟨"s1", "s2", "3", []⟩] 1).map
            (fun l => (l, (5:ℚ))))).lookup "s2" = some (2 * 5) :=
  relation_reconstruction ["s1", "s2"] "s1" "s2" "3" [] 1 (fun _ => 2)
    (fun _ => 5) rfl (by simp) (by simp) (by simp)

end Glotaran
